import Mathlib

/-!
Verification of the session feature-aggregation pipeline of this repository:
event normalization (consecutive-duplicate removal, timestamp parsing),
feature derivation (recency, cyclical weekday encoding, relative price,
categorical remapping), session grouping, sequence windowing and the
day-index partition key.  Each definition is a shallow embedding of the
corresponding notebook cell; reals appearing in per-row arithmetic are
embedded as exact rationals, the weekday trigonometry as real numbers.
-/

namespace T4R

/-! ## Event rows, as seen by the consecutive-duplicate-removal cell.
Session and item identifiers are the categorified integer codes (observed
values are remapped to codes starting at 1, so a valid session id is never
0); `ts` is the integral epoch-seconds event time. -/

structure Row where
  sess : Nat
  item : Nat
  ts : Int
deriving DecidableEq

/-- Embedding of the consecutive-repeat removal cell: the dataframe is
sorted by (session, timestamp), the columns `product_id_past` and
`session_id_past` are produced by `shift(1).fillna(0)` (so row `i` is
compared with original row `i-1`, and row 0 with the fill value `(0, 0)`),
and a row is kept unless both its session id and its item id equal the
shifted values.  The accumulator `prev` is always the current row's pair,
whether or not the row is kept, which is exactly the shift-then-filter
semantics of the source. -/
def dedupAux (prev : Nat × Nat) : List Row → List Row
  | [] => []
  | r :: rest =>
    if r.sess = prev.1 ∧ r.item = prev.2 then dedupAux (r.sess, r.item) rest
    else r :: dedupAux (r.sess, r.item) rest

/-- The whole cell: shifted predecessors are filled with 0. -/
def dedupConsecutive (rows : List Row) : List Row :=
  dedupAux (0, 0) rows

/-- Spec-side rendering of the dedup sentence, for the refinement theorem:
each row after the first is dropped exactly when both its session id and
its item id equal those of the immediately preceding row of the input. -/
def specKeepTail (p : Row) : List Row → List Row
  | [] => []
  | r :: rest =>
    (if r.sess = p.sess ∧ r.item = p.item then [] else [r]) ++ specKeepTail r rest

/-- Spec-side rendering, top level: the first row has no preceding row and
is always kept. -/
def specDedup : List Row → List Row
  | [] => []
  | r :: rest => r :: specKeepTail r rest

theorem dedupAux_pair (p : Row) (rows : List Row) :
    dedupAux (p.sess, p.item) rows = specKeepTail p rows := by
  induction rows generalizing p with
  | nil => rfl
  | cons r rest ih =>
    show (if r.sess = p.sess ∧ r.item = p.item then dedupAux (r.sess, r.item) rest
        else r :: dedupAux (r.sess, r.item) rest) = _
    by_cases h : r.sess = p.sess ∧ r.item = p.item
    · rw [if_pos h, ih r, specKeepTail, if_pos h, List.nil_append]
    · rw [if_neg h, ih r, specKeepTail, if_neg h, List.singleton_append]

/-- C2: on a (session, timestamp)-sorted dataset whose session identifiers
are valid categorified codes (never the fill value 0), the
shift-compare-filter cell drops a row if and only if both its session id
and its item id equal those of the immediately preceding row: its output
coincides with the literal spec-side dedup.  Consequently of two adjacent
same-item events in one session at most one survives, and non-adjacent
repeats are all preserved. -/
theorem dedup_iff_prev_match (rows : List Row) (h : ∀ r ∈ rows, r.sess ≠ 0) :
    dedupConsecutive rows = specDedup rows := by
  cases rows with
  | nil => rfl
  | cons r rest =>
    have hr : r.sess ≠ 0 := h r (List.mem_cons_self r rest)
    show (if r.sess = 0 ∧ r.item = 0 then dedupAux (r.sess, r.item) rest
        else r :: dedupAux (r.sess, r.item) rest) = _
    rw [if_neg (fun hc => hr hc.1), dedupAux_pair r rest, specDedup]

/-- Witness for C2 at a concrete sorted dataset: two adjacent same-item
events (only the first survives) and a non-adjacent repeat (preserved). -/
theorem dedup_iff_prev_match_witness :
    (∀ r ∈ [Row.mk 1 5 10, Row.mk 1 5 20, Row.mk 1 6 30, Row.mk 1 5 40],
        r.sess ≠ 0) ∧
      dedupConsecutive [Row.mk 1 5 10, Row.mk 1 5 20, Row.mk 1 6 30, Row.mk 1 5 40] =
        specDedup [Row.mk 1 5 10, Row.mk 1 5 20, Row.mk 1 6 30, Row.mk 1 5 40] :=
  ⟨by decide, dedup_iff_prev_match _ (by decide)⟩

/-- The (session id, item id) pair of the last row of a list, or `prev`
when the list is empty: the value the shifted columns expose to whatever
follows the list. -/
def lastPair (prev : Nat × Nat) : List Row → Nat × Nat
  | [] => prev
  | r :: rest => lastPair (r.sess, r.item) rest

theorem lastPair_append (prev : Nat × Nat) (l₁ l₂ : List Row) :
    lastPair prev (l₁ ++ l₂) = lastPair (lastPair prev l₁) l₂ := by
  induction l₁ generalizing prev with
  | nil => rfl
  | cons r rest ih => simpa [lastPair] using ih (r.sess, r.item)

theorem lastPair_getLast (rows : List Row) (p : Row)
    (h : rows.getLast? = some p) (prev : Nat × Nat) :
    lastPair prev rows = (p.sess, p.item) := by
  induction rows generalizing prev with
  | nil => simp at h
  | cons r rest ih =>
    cases rest with
    | nil =>
      simp only [List.getLast?_singleton, Option.some.injEq] at h
      simp [lastPair, h]
    | cons q tail =>
      rw [List.getLast?_cons_cons] at h
      exact ih h (r.sess, r.item)

theorem dedupAux_append (prev : Nat × Nat) (l₁ l₂ : List Row) :
    dedupAux prev (l₁ ++ l₂) = dedupAux prev l₁ ++ dedupAux (lastPair prev l₁) l₂ := by
  induction l₁ generalizing prev with
  | nil => rfl
  | cons r rest ih =>
    show (if r.sess = prev.1 ∧ r.item = prev.2 then dedupAux (r.sess, r.item) (rest ++ l₂)
        else r :: dedupAux (r.sess, r.item) (rest ++ l₂)) = _
    by_cases h : r.sess = prev.1 ∧ r.item = prev.2
    · rw [if_pos h, ih (r.sess, r.item)]
      show _ = (if r.sess = prev.1 ∧ r.item = prev.2 then _ else _) ++ _
      rw [if_pos h, lastPair]
    · rw [if_neg h, ih (r.sess, r.item)]
      show _ = (if r.sess = prev.1 ∧ r.item = prev.2 then _ else _) ++ _
      rw [if_neg h, lastPair, List.cons_append]

theorem dedupAux_all_match (a b : Nat) (rs : List Row)
    (hsame : ∀ r ∈ rs, r.sess = a ∧ r.item = b) :
    dedupAux (a, b) rs = [] := by
  induction rs with
  | nil => rfl
  | cons r rest ih =>
    obtain ⟨h1, h2⟩ := hsame r (List.mem_cons_self r rest)
    show (if r.sess = a ∧ r.item = b then dedupAux (r.sess, r.item) rest
        else r :: dedupAux (r.sess, r.item) rest) = []
    rw [if_pos ⟨h1, h2⟩, h1, h2]
    exact ih fun r hr => hsame r (List.mem_cons_of_mem _ hr)

theorem lastPair_all_match (a b : Nat) (rs : List Row)
    (hsame : ∀ r ∈ rs, r.sess = a ∧ r.item = b) :
    lastPair (a, b) rs = (a, b) := by
  induction rs with
  | nil => rfl
  | cons r rest ih =>
    obtain ⟨h1, h2⟩ := hsame r (List.mem_cons_self r rest)
    show lastPair (r.sess, r.item) rest = (a, b)
    rw [h1, h2]
    exact ih fun r hr => hsame r (List.mem_cons_of_mem _ hr)

/-- C10: for a maximal run of consecutive rows sharing one
(session id, item id) pair, exactly the run's first row survives the
shift-compare-filter cell; rows before and after the run are processed
against their own original neighbours (the shifted columns are computed
once, before filtering).  When the run opens the dataset, its first row
still survives because the shifted fill value 0 is never a valid
categorified session identifier. -/
theorem dedup_run_first_survives (xs : List Row) (r₀ : Row) (rs ys : List Row)
    (h0 : r₀.sess ≠ 0)
    (hsame : ∀ r ∈ rs, r.sess = r₀.sess ∧ r.item = r₀.item)
    (hleft : ∀ p, xs.getLast? = some p → p.sess ≠ r₀.sess ∨ p.item ≠ r₀.item) :
    dedupConsecutive (xs ++ (r₀ :: rs) ++ ys) =
      dedupConsecutive xs ++ r₀ :: dedupAux (r₀.sess, r₀.item) ys := by
  have hentry : ¬(r₀.sess = (lastPair (0, 0) xs).1 ∧ r₀.item = (lastPair (0, 0) xs).2) := by
    cases hx : xs.getLast? with
    | none =>
      have : xs = [] := List.getLast?_eq_none_iff.mp hx
      subst this
      exact fun hc => h0 hc.1
    | some p =>
      rw [lastPair_getLast xs p hx]
      rcases hleft p hx with hne | hne
      · exact fun hc => hne (hc.1 ▸ rfl)
      · exact fun hc => hne (hc.2 ▸ rfl)
  have hrun : dedupAux (lastPair (0, 0) xs) (r₀ :: rs) = [r₀] := by
    show (if r₀.sess = (lastPair (0, 0) xs).1 ∧ r₀.item = (lastPair (0, 0) xs).2 then
        dedupAux (r₀.sess, r₀.item) rs else r₀ :: dedupAux (r₀.sess, r₀.item) rs) = [r₀]
    rw [if_neg hentry, dedupAux_all_match r₀.sess r₀.item rs hsame]
  have hlast : lastPair (lastPair (0, 0) xs) (r₀ :: rs) = (r₀.sess, r₀.item) := by
    show lastPair (r₀.sess, r₀.item) rs = _
    exact lastPair_all_match r₀.sess r₀.item rs hsame
  unfold dedupConsecutive
  rw [dedupAux_append, dedupAux_append, hrun, lastPair_append, hlast,
    List.append_assoc, List.singleton_append]

/-- Witness for C10: a run of three same-(session, item) rows in the middle
of a dataset; only its earliest row survives. -/
theorem dedup_run_first_survives_witness :
    (Row.mk 2 7 30).sess ≠ 0 ∧
      (∀ r ∈ [Row.mk 2 7 40, Row.mk 2 7 50],
          r.sess = (Row.mk 2 7 30).sess ∧ r.item = (Row.mk 2 7 30).item) ∧
      (∀ p, [Row.mk 1 7 10, Row.mk 2 3 20].getLast? = some p →
          p.sess ≠ (Row.mk 2 7 30).sess ∨ p.item ≠ (Row.mk 2 7 30).item) ∧
      dedupConsecutive ([Row.mk 1 7 10, Row.mk 2 3 20] ++
          (Row.mk 2 7 30 :: [Row.mk 2 7 40, Row.mk 2 7 50]) ++ [Row.mk 2 9 60]) =
        dedupConsecutive [Row.mk 1 7 10, Row.mk 2 3 20] ++
          Row.mk 2 7 30 :: dedupAux ((Row.mk 2 7 30).sess, (Row.mk 2 7 30).item)
            [Row.mk 2 9 60] :=
  ⟨by decide, by decide, by decide,
    dedup_run_first_survives _ _ _ _ (by decide) (by decide) (by decide)⟩

/-! ## Column minimum, recency and day index -/

/-- Minimum of a column of values (`min()` / groupby-`min` aggregation),
with a default for the empty column. -/
def minFoldD {α : Type} [LinearOrder α] (d : α) : List α → α
  | [] => d
  | [x] => x
  | x :: y :: xs => min x (minFoldD d (y :: xs))

theorem minFoldD_le {α : Type} [LinearOrder α] (d : α) (l : List α) :
    ∀ x ∈ l, minFoldD d l ≤ x := by
  induction l with
  | nil => intro x hx; simp at hx
  | cons a l ih =>
    intro x hx
    cases l with
    | nil =>
      simp only [List.mem_singleton] at hx
      simp [minFoldD, hx]
    | cons b t =>
      show min a (minFoldD d (b :: t)) ≤ x
      rcases List.mem_cons.mp hx with h | h
      · exact h ▸ min_le_left _ _
      · exact le_trans (min_le_right _ _) (ih x h)

theorem minFoldD_mem {α : Type} [LinearOrder α] (d : α) (l : List α) (h : l ≠ []) :
    minFoldD d l ∈ l := by
  induction l with
  | nil => exact absurd rfl h
  | cons a l ih =>
    cases l with
    | nil => simp [minFoldD]
    | cons b t =>
      show min a (minFoldD d (b :: t)) ∈ a :: b :: t
      rcases le_total a (minFoldD d (b :: t)) with hle | hle
      · simp [min_eq_left hle]
      · rw [min_eq_right hle]
        exact List.mem_cons_of_mem a (ih (by simp))

/-- First-seen timestamp of an item: the groupby-`product_id` minimum of
`event_time_ts`, as in `item_first_interaction_df`. -/
def itemFirstSeen (rows : List Row) (it : Nat) : Int :=
  minFoldD 0 ((rows.filter fun r => r.item == it).map (·.ts))

/-- Embedding of `ItemRecency.transform`: `delta_days` is the timestamp
difference divided by `60*60*24`, and the produced column is
`delta_days * (delta_days >= 0)` (elementwise boolean cast to 0/1). -/
def deltaDays (ts first : Int) : ℚ :=
  ((ts : ℚ) - (first : ℚ)) / (60 * 60 * 24)

def recencyDays (ts first : Int) : ℚ :=
  deltaDays ts first * (if 0 ≤ deltaDays ts first then 1 else 0)

theorem recencyDays_eq_max (ts first : Int) :
    recencyDays ts first = max 0 (((ts : ℚ) - (first : ℚ)) / 86400) := by
  unfold recencyDays deltaDays
  by_cases h : (0 : ℚ) ≤ ((ts : ℚ) - (first : ℚ)) / (60 * 60 * 24)
  · rw [if_pos h, mul_one, max_eq_right (by norm_num at h ⊢; exact h)]
    norm_num
  · rw [if_neg h, mul_zero, max_eq_left]
    norm_num at h ⊢
    exact le_of_lt h

/-- C3: per row, the joined item-first-seen value is the minimum event
timestamp over the rows sharing the row's item identifier (it bounds them
all from below and is attained), and the recency feature equals
`max 0 ((row_timestamp - item_first_seen) / 86400)`; in particular it
is nonnegative before the log/normalization step. -/
theorem recency_spec (rows : List Row) (r : Row) (hr : r ∈ rows) :
    (∀ q ∈ rows, q.item = r.item → itemFirstSeen rows r.item ≤ q.ts) ∧
      (∃ q ∈ rows, q.item = r.item ∧ q.ts = itemFirstSeen rows r.item) ∧
      recencyDays r.ts (itemFirstSeen rows r.item) =
        max 0 (((r.ts : ℚ) - (itemFirstSeen rows r.item : ℚ)) / 86400) ∧
      0 ≤ recencyDays r.ts (itemFirstSeen rows r.item) := by
  refine ⟨?_, ?_, recencyDays_eq_max _ _, ?_⟩
  · intro q hq hqi
    refine minFoldD_le 0 _ q.ts (List.mem_map.mpr ⟨q, ?_, rfl⟩)
    refine List.mem_filter.mpr ⟨hq, ?_⟩
    simpa using hqi
  · have hne : (rows.filter fun q => q.item == r.item).map (·.ts) ≠ [] := by
      have : r ∈ rows.filter fun q => q.item == r.item :=
        List.mem_filter.mpr ⟨hr, by simp⟩
      intro hcontra
      rcases List.map_eq_nil_iff.mp hcontra with hnil
      rw [hnil] at this
      simp at this
    have hmem := minFoldD_mem 0 _ hne
    rcases List.mem_map.mp hmem with ⟨q, hq, hts⟩
    rcases List.mem_filter.mp hq with ⟨hq1, hq2⟩
    exact ⟨q, hq1, by simpa using hq2, hts.symm ▸ rfl⟩
  · rw [recencyDays_eq_max]
    exact le_max_left _ _

/-- Witness for C3: three rows, two sharing an item; the later same-item
row has first-seen 100 and recency `max 0 ((250 - 100)/86400)`. -/
theorem recency_spec_witness :
    Row.mk 1 5 250 ∈ [Row.mk 1 5 100, Row.mk 1 6 170, Row.mk 1 5 250] ∧
      recencyDays 250 (itemFirstSeen [Row.mk 1 5 100, Row.mk 1 6 170, Row.mk 1 5 250] 5) =
        max 0 ((250 - (itemFirstSeen [Row.mk 1 5 100, Row.mk 1 6 170, Row.mk 1 5 250] 5 : ℚ)) / 86400) :=
  ⟨by decide, (recency_spec _ (Row.mk 1 5 250) (by decide)).2.2.1⟩

/-- Number of whole days between two epoch-second instants, the spec's
wording for the day-index distance (a is the earlier instant). -/
def wholeDaysBetween (a b : Nat) : Nat := (b - a) / 86400

/-- Calendar day (since the epoch, which starts at midnight) on which an
epoch-second timestamp falls. -/
def epochDay (t : Nat) : Nat := t / 86400

/-- Embedding of the `day_index` cell: per session,
`(first_event_time - min(first_event_time)).days + 1`, where the timedelta
`.days` accessor floors the difference in seconds to whole days. -/
def dayIndex (firsts : List Nat) (t : Nat) : Nat :=
  (t - minFoldD 0 firsts) / 86400 + 1

/-- C4: the day index of a session equals the number of whole days between
its first-event time and the earliest first-event time over all sessions,
plus 1; a session whose first event falls on the globally earliest
observed calendar date gets day-index 1, and a session whose first event
is exactly 6 days later than the earliest gets day-index 7. -/
theorem day_index_spec (firsts : List Nat) (t : Nat) (ht : t ∈ firsts) :
    dayIndex firsts t = wholeDaysBetween (minFoldD 0 firsts) t + 1 ∧
      (epochDay t = epochDay (minFoldD 0 firsts) → dayIndex firsts t = 1) ∧
      (t = minFoldD 0 firsts + 6 * 86400 → dayIndex firsts t = 7) := by
  have hle : minFoldD 0 firsts ≤ t := minFoldD_le 0 firsts t ht
  refine ⟨rfl, ?_, ?_⟩
  · intro hday
    have h1 : t / 86400 = minFoldD 0 firsts / 86400 := hday
    have h2 : t - minFoldD 0 firsts < 86400 := by omega
    unfold dayIndex
    rw [Nat.div_eq_of_lt h2]
  · intro h6
    unfold dayIndex
    omega

/-- Witness for C4: with earliest first-event time 1000, the session
starting exactly 6 days later gets day-index 7, and the earliest one gets
day-index 1. -/
theorem day_index_spec_witness :
    dayIndex [1000, 1000 + 6 * 86400] (1000 + 6 * 86400) = 7 ∧
      dayIndex [1000, 1000 + 6 * 86400] 1000 = 1 :=
  ⟨(day_index_spec [1000, 1000 + 6 * 86400] (1000 + 6 * 86400) (by decide)).2.2 (by decide),
    (day_index_spec [1000, 1000 + 6 * 86400] 1000 (by decide)).2.1 (by decide)⟩

/-! ## Cyclical weekday encoding -/

/-- Embedding of `get_cycled_feature_value_sin`: scale the value (plus the
tiny constant 0.000001) by the period and take the sine of the full turn. -/
noncomputable def getCycledFeatureValueSin (col maxValue : ℝ) : ℝ :=
  Real.sin (2 * Real.pi * ((col + 0.000001) / maxValue))

/-- Embedding of `get_cycled_feature_value_cos`. -/
noncomputable def getCycledFeatureValueCos (col maxValue : ℝ) : ℝ :=
  Real.cos (2 * Real.pi * ((col + 0.000001) / maxValue))

/-- The `et_dayofweek_sin` column: the operator pipeline applies the sine
encoder to `weekday + 1` with period 7. -/
noncomputable def etDayofweekSin (d : ℝ) : ℝ := getCycledFeatureValueSin (d + 1) 7

/-- The `et_dayofweek_cos` column. -/
noncomputable def etDayofweekCos (d : ℝ) : ℝ := getCycledFeatureValueCos (d + 1) 7

/-- The 2-D weekday embedding as a pair. -/
noncomputable def weekdayEncoding (d : ℝ) : ℝ × ℝ := (etDayofweekSin d, etDayofweekCos d)

/-- Euclidean distance between two encoded points. -/
noncomputable def euclDist (p q : ℝ × ℝ) : ℝ :=
  Real.sqrt ((p.1 - q.1) ^ 2 + (p.2 - q.2) ^ 2)

theorem chord_sq (a b : ℝ) :
    (Real.sin a - Real.sin b) ^ 2 + (Real.cos a - Real.cos b) ^ 2 =
      2 - 2 * Real.cos (a - b) := by
  have ha := Real.sin_sq_add_cos_sq a
  have hb := Real.sin_sq_add_cos_sq b
  have hab := Real.cos_sub a b
  nlinarith [ha, hb, hab]

/-- C5: for every day-of-week d in {0,...,6} the two encoded features are
`sin(2π(d+1+1e-6)/7)` and `cos(2π(d+1+1e-6)/7)`, their squares sum to 1
exactly, and the Euclidean distance from encoding(6) to encoding(0) is
strictly smaller than from encoding(3) to encoding(0): day 6 wraps around
close to day 0. -/
theorem cyclical_weekday_spec :
    (∀ d : Fin 7,
        etDayofweekSin (d : ℕ) =
            Real.sin (2 * Real.pi * (((d : ℕ) + 1 + 1 / 1000000) / 7)) ∧
          etDayofweekCos (d : ℕ) =
            Real.cos (2 * Real.pi * (((d : ℕ) + 1 + 1 / 1000000) / 7)) ∧
          etDayofweekSin (d : ℕ) ^ 2 + etDayofweekCos (d : ℕ) ^ 2 = 1) ∧
      euclDist (weekdayEncoding 6) (weekdayEncoding 0) <
        euclDist (weekdayEncoding 3) (weekdayEncoding 0) := by
  have heps : (0.000001 : ℝ) = 1 / 1000000 := by norm_num
  constructor
  · intro d
    refine ⟨?_, ?_, Real.sin_sq_add_cos_sq _⟩
    · unfold etDayofweekSin getCycledFeatureValueSin
      rw [heps]
    · unfold etDayofweekCos getCycledFeatureValueCos
      rw [heps]
  · have hpi := Real.pi_pos
    set e : ℝ := 0.000001 with he
    have theta : ∀ d : ℝ, etDayofweekSin d = Real.sin (2 * Real.pi * ((d + 1 + e) / 7)) ∧
        etDayofweekCos d = Real.cos (2 * Real.pi * ((d + 1 + e) / 7)) := by
      intro d
      exact ⟨rfl, rfl⟩
    have h60 : 2 * Real.pi * ((6 + 1 + e) / 7) - 2 * Real.pi * ((0 + 1 + e) / 7) =
        2 * Real.pi - 2 * Real.pi / 7 := by ring
    have h30 : 2 * Real.pi * ((3 + 1 + e) / 7) - 2 * Real.pi * ((0 + 1 + e) / 7) =
        6 * Real.pi / 7 := by ring
    have hc6 : Real.cos (2 * Real.pi * ((6 + 1 + e) / 7) - 2 * Real.pi * ((0 + 1 + e) / 7)) =
        Real.cos (2 * Real.pi / 7) := by
      rw [h60, Real.cos_two_pi_sub]
    have hcpos : 0 < Real.cos (2 * Real.pi / 7) := by
      apply Real.cos_pos_of_mem_Ioo
      constructor
      · linarith
      · linarith
    have hcneg : Real.cos (6 * Real.pi / 7) < 0 := by
      apply Real.cos_neg_of_pi_div_two_lt_of_lt
      · linarith
      · linarith
    unfold euclDist weekdayEncoding
    rw [(theta 6).1, (theta 6).2, (theta 0).1, (theta 0).2, (theta 3).1, (theta 3).2]
    rw [chord_sq, chord_sq, hc6, h30]
    apply Real.sqrt_lt_sqrt
    · nlinarith [Real.cos_le_one (2 * Real.pi / 7)]
    · nlinarith

/-- Witness for C5 at the concrete day 3: the squares of the two encoded
features sum to 1. -/
theorem cyclical_weekday_spec_witness :
    etDayofweekSin ((3 : Fin 7) : ℕ) ^ 2 + etDayofweekCos ((3 : Fin 7) : ℕ) ^ 2 = 1 :=
  (cyclical_weekday_spec.1 3).2.2

/-! ## Relative price to the category average -/

/-- Embedding of `relative_price_to_avg_categ`: with epsilon `1e-5`, the
column is `((price - avg) / (avg + epsilon)) * (avg > 0)`, the boolean
factor cast to the integer 0 or 1. -/
def relativePriceToAvgCateg (price avgCategPrice : ℚ) : ℚ :=
  ((price - avgCategPrice) / (avgCategPrice + 1e-5)) *
    (if 0 < avgCategPrice then 1 else 0)

/-- C6: when the category mean price is strictly positive the feature is
the guarded ratio `(price - mean) / (mean + 1e-5)`, and when the mean is
non-positive the feature is exactly 0 (the indicator annihilates the
ratio, so no unguarded division contributes to the output). -/
theorem relative_price_spec (price avg : ℚ) :
    (0 < avg → relativePriceToAvgCateg price avg = (price - avg) / (avg + 1e-5)) ∧
      (avg ≤ 0 → relativePriceToAvgCateg price avg = 0) := by
  constructor
  · intro h
    unfold relativePriceToAvgCateg
    rw [if_pos h, mul_one]
  · intro h
    unfold relativePriceToAvgCateg
    rw [if_neg (not_lt.mpr h), mul_zero]

/-- Witness for C6: a positive category mean yields the ratio, a
non-positive one yields 0. -/
theorem relative_price_spec_witness :
    relativePriceToAvgCateg 3 2 = (3 - 2) / (2 + 1e-5) ∧
      relativePriceToAvgCateg 3 (-2) = 0 :=
  ⟨(relative_price_spec 3 2).1 (by norm_num),
    (relative_price_spec 3 (-2)).2 (by norm_num)⟩

/-! ## Categorical remapping -/

/-- Position of a value in a list (0-based index of its first occurrence;
length of the list when absent). -/
def posIn : List Nat → Nat → Nat
  | [], _ => 0
  | y :: ys, x => if y = x then 0 else posIn ys x + 1

/-- The distinct non-null values observed in a categorical column, in
first-occurrence order. -/
def distinctObserved (col : List (Option Nat)) : List Nat :=
  (col.filterMap id).dedup

/-- Cardinality of the encoding: the observed distinct values plus the one
reserved unknown code. -/
def cardinality (col : List (Option Nat)) : Nat :=
  (distinctObserved col).length + 1

/-- Modelled from the spec: the dense remapping performed by the external
`Categorify(start_index=1)` operator, whose implementation is not part of
this repository.  Nulls go to the reserved unknown code 1; each observed
distinct value gets the next dense code, so codes cover
`{1, ..., cardinality}` and 0 is never assigned (it stays reserved as the
padding sentinel of the windowing stage). -/
def categorify (col : List (Option Nat)) (v : Option Nat) : Nat :=
  match v with
  | none => 1
  | some x => posIn (distinctObserved col) x + 2

theorem posIn_map_offset (l : List Nat) (h : l.Nodup) (k : Nat) :
    l.map (fun x => posIn l x + k) = List.range' k l.length := by
  induction l generalizing k with
  | nil => rfl
  | cons y ys ih =>
    rcases List.nodup_cons.mp h with ⟨hy, hys⟩
    have hhead : posIn (y :: ys) y + k = k := by simp [posIn]
    have htail : ys.map (fun x => posIn (y :: ys) x + k) =
        ys.map (fun x => posIn ys x + (k + 1)) := by
      refine List.map_congr_left ?_
      intro x hx
      have hyx : y ≠ x := fun hc => hy (hc ▸ hx)
      simp [posIn, hyx]
      omega
    show (posIn (y :: ys) y + k) :: ys.map (fun x => posIn (y :: ys) x + k) = _
    rw [hhead, htail, ih hys (k + 1)]
    rfl

/-- C7: the remapping is a bijection from the observed distinct values
plus the reserved unknown code onto the dense range {1, ..., cardinality}:
the encoding domain is duplicate-free, its image is exactly
`[1, 2, ..., cardinality]`, nulls land on the reserved unknown code 1
rather than being dropped, and no value whatsoever is assigned the
padding sentinel 0. -/
theorem categorify_spec (col : List (Option Nat)) :
    ((none :: (distinctObserved col).map some).map (categorify col) =
        List.range' 1 (cardinality col)) ∧
      (none :: (distinctObserved col).map some).Nodup ∧
      categorify col none = 1 ∧
      (∀ v : Option Nat, categorify col v ≠ 0) := by
  refine ⟨?_, ?_, rfl, ?_⟩
  · have hnodup : (distinctObserved col).Nodup := List.nodup_dedup _
    show categorify col none ::
        ((distinctObserved col).map some).map (categorify col) = _
    rw [List.map_map]
    have himg : ((distinctObserved col).map (categorify col ∘ some)) =
        (distinctObserved col).map (fun x => posIn (distinctObserved col) x + 2) :=
      rfl
    rw [himg, posIn_map_offset _ hnodup 2]
    show (1 :: List.range' 2 (distinctObserved col).length) =
      List.range' 1 ((distinctObserved col).length + 1)
    rfl
  · rw [List.nodup_cons]
    refine ⟨by simp, ?_⟩
    exact (List.nodup_dedup _).map (Option.some_injective ℕ)
  · intro v
    cases v with
    | none => simp [categorify]
    | some x => simp [categorify]

/-- Witness for C7 on a concrete column with a null and a repeat: the
encoding image is exactly the dense range starting at 1, and the padding
sentinel 0 is never assigned. -/
theorem categorify_spec_witness :
    (none :: (distinctObserved [some 5, none, some 7, some 5]).map some).map
        (categorify [some 5, none, some 7, some 5]) =
      List.range' 1 (cardinality [some 5, none, some 7, some 5]) ∧
      categorify [some 5, none, some 7, some 5] (some 9) ≠ 0 :=
  ⟨(categorify_spec [some 5, none, some 7, some 5]).1,
    (categorify_spec [some 5, none, some 7, some 5]).2.2.2 (some 9)⟩

/-! ## Session grouping and sequence windowing -/

/-- A fully derived interaction row as it enters the groupby workflow:
categorified identifier columns, the epoch-second event time and the
derived continuous columns (embedded as exact rationals). -/
structure FRow where
  userSession : Nat
  userId : Nat
  productId : Nat
  categoryCode : Nat
  brand : Nat
  categoryId : Nat
  eventTimeTs : Nat
  dayofweekSin : ℚ
  dayofweekCos : ℚ
  priceLogNorm : ℚ
  relPrice : ℚ
  recencyLogNorm : ℚ
deriving DecidableEq

def defaultFRow : FRow := ⟨0, 0, 0, 0, 0, 0, 0, 0, 0, 0, 0, 0⟩

/-- Stable insertion of a row into a timestamp-sorted list: the incoming
row (earlier in the original order) goes before every row with an equal
timestamp. -/
def insertByTs (r : FRow) : List FRow → List FRow
  | [] => [r]
  | x :: xs => if x.eventTimeTs < r.eventTimeTs then x :: insertByTs r xs
      else r :: x :: xs

/-- Stable sort of a session's rows by ascending event timestamp, the
`sort_cols=["event_time_ts"]` step of the groupby operator. -/
def sortByTs : List FRow → List FRow
  | [] => []
  | r :: rest => insertByTs r (sortByTs rest)

/-- The rows of one session in sequence order: filter on the session key,
then sort by event timestamp. -/
def sessionRows (rows : List FRow) (s : Nat) : List FRow :=
  sortByTs (rows.filter fun r => r.userSession == s)

/-- One aggregated session record, named after the groupby outputs
(`product_id-list`, `product_id-count`, `event_time_ts-first`, ...). -/
structure SessionRecord where
  userSession : Nat
  userIdFirst : Nat
  productIdList : List Nat
  productIdCount : Nat
  categoryCodeList : List Nat
  brandList : List Nat
  categoryIdList : List Nat
  eventTimeTsFirst : Nat
  dayofweekSinList : List ℚ
  dayofweekCosList : List ℚ
  priceLogNormList : List ℚ
  relPriceList : List ℚ
  recencyList : List ℚ
deriving DecidableEq

/-- Modelled from the spec: the external `nvt.ops.Groupby` operator (its
implementation is not part of this repository) groups rows by
`user_session`, sorts each group by `event_time_ts`, and aggregates each
tracked column into the ordered list of its per-event values; `first`
aggregates take the first event's value and `count` the length of the
`product_id` column. -/
def groupbyRecord (rows : List FRow) (s : Nat) : SessionRecord :=
  let g := sessionRows rows s
  { userSession := s
    userIdFirst := (g.headD defaultFRow).userId
    productIdList := g.map (·.productId)
    productIdCount := (g.map (·.productId)).length
    categoryCodeList := g.map (·.categoryCode)
    brandList := g.map (·.brand)
    categoryIdList := g.map (·.categoryId)
    eventTimeTsFirst := (g.headD defaultFRow).eventTimeTs
    dayofweekSinList := g.map (·.dayofweekSin)
    dayofweekCosList := g.map (·.dayofweekCos)
    priceLogNormList := g.map (·.priceLogNorm)
    relPriceList := g.map (·.relPrice)
    recencyList := g.map (·.recencyLogNorm) }

/-- The distinct session keys of the dataset. -/
def sessionIds (rows : List FRow) : List Nat :=
  (rows.map (·.userSession)).dedup

/-- The full groupby output: one record per distinct session key. -/
def groupbySessions (rows : List FRow) : List SessionRecord :=
  (sessionIds rows).map (groupbyRecord rows)

/-- Modelled from the spec: the external `nvt.ops.ListSlice(0, n, pad=True)`
operator keeps the first `n` entries of a list column and right-pads with
the sentinel `pad` to exactly length `n`. -/
def listSlicePad {α : Type} (n : Nat) (pad : α) (l : List α) : List α :=
  l.take n ++ List.replicate (n - l.length) pad

def SESSIONS_MAX_LENGTH : Nat := 20

def MINIMUM_SESSION_LENGTH : Nat := 2

/-- One output row of the workflow: the selected columns `user_session`,
`product_id-count`, the nine trimmed `_seq` list columns, and `day_index`. -/
structure OutRecord where
  userSession : Nat
  productIdCount : Nat
  productIdSeq : List Nat
  categoryCodeSeq : List Nat
  brandSeq : List Nat
  categoryIdSeq : List Nat
  dayofweekSinSeq : List ℚ
  dayofweekCosSeq : List ℚ
  priceLogNormSeq : List ℚ
  relPriceSeq : List ℚ
  recencySeq : List ℚ
  dayIndexCol : Nat
deriving DecidableEq

/-- The `selected_features` stage: trim and pad every list column to the
maximum session length with sentinel 0, and attach the day index derived
from the session's first event time. -/
def selectRecord (firsts : List Nat) (rec : SessionRecord) : OutRecord :=
  { userSession := rec.userSession
    productIdCount := rec.productIdCount
    productIdSeq := listSlicePad SESSIONS_MAX_LENGTH 0 rec.productIdList
    categoryCodeSeq := listSlicePad SESSIONS_MAX_LENGTH 0 rec.categoryCodeList
    brandSeq := listSlicePad SESSIONS_MAX_LENGTH 0 rec.brandList
    categoryIdSeq := listSlicePad SESSIONS_MAX_LENGTH 0 rec.categoryIdList
    dayofweekSinSeq := listSlicePad SESSIONS_MAX_LENGTH 0 rec.dayofweekSinList
    dayofweekCosSeq := listSlicePad SESSIONS_MAX_LENGTH 0 rec.dayofweekCosList
    priceLogNormSeq := listSlicePad SESSIONS_MAX_LENGTH 0 rec.priceLogNormList
    relPriceSeq := listSlicePad SESSIONS_MAX_LENGTH 0 rec.relPriceList
    recencySeq := listSlicePad SESSIONS_MAX_LENGTH 0 rec.recencyList
    dayIndexCol := dayIndex firsts rec.eventTimeTsFirst }

/-- The `filtered_sessions` workflow output: group, window, and keep only
the sessions whose `product_id-count` reaches the configured minimum. -/
def filteredSessions (rows : List FRow) : List OutRecord :=
  let recs := groupbySessions rows
  let firsts := recs.map (·.eventTimeTsFirst)
  (recs.map (selectRecord firsts)).filter
    fun o => MINIMUM_SESSION_LENGTH ≤ o.productIdCount

/-- One synthetic raw interaction of the end-to-end scenario. -/
def mkFRow (s k : Nat) : FRow :=
  { userSession := s
    userId := s
    productId := 100 * s + k
    categoryCode := k
    brand := k
    categoryId := k
    eventTimeTs := 100000 * s + k
    dayofweekSin := 0
    dayofweekCos := 0
    priceLogNorm := 0
    relPrice := 0
    recencyLogNorm := 0 }

/-- The end-to-end scenario input: three sessions with raw interaction
counts 1, 5 and 25, each session's events in increasing timestamp order. -/
def scenarioRows : List FRow :=
  (List.range 1).map (mkFRow 1) ++ (List.range 5).map (mkFRow 2) ++
    (List.range 25).map (mkFRow 3)

theorem listSlicePad_len {α : Type} (n : Nat) (p : α) (l : List α) :
    (listSlicePad n p l).length = n := by
  simp only [listSlicePad, List.length_append, List.length_take, List.length_replicate]
  omega

theorem listSlicePad_take {α : Type} (n : Nat) (p : α) (l : List α) :
    listSlicePad n p l = l.take (min l.length n) ++ List.replicate (n - l.length) p := by
  unfold listSlicePad
  congr 1
  rw [List.take_eq_take]
  omega

/-- C8: each of the nine list-valued aggregates of a session record has
length equal to the session's (post-deduplication) interaction count, the
number of rows carrying its session key; in particular all per-feature
sequences within one record have identical length, and the `count`
aggregate records exactly that common length. -/
theorem aggregate_lengths_spec (rows : List FRow) (s : Nat) :
    (groupbyRecord rows s).productIdList.length = (sessionRows rows s).length ∧
      (groupbyRecord rows s).categoryCodeList.length = (sessionRows rows s).length ∧
      (groupbyRecord rows s).brandList.length = (sessionRows rows s).length ∧
      (groupbyRecord rows s).categoryIdList.length = (sessionRows rows s).length ∧
      (groupbyRecord rows s).dayofweekSinList.length = (sessionRows rows s).length ∧
      (groupbyRecord rows s).dayofweekCosList.length = (sessionRows rows s).length ∧
      (groupbyRecord rows s).priceLogNormList.length = (sessionRows rows s).length ∧
      (groupbyRecord rows s).relPriceList.length = (sessionRows rows s).length ∧
      (groupbyRecord rows s).recencyList.length = (sessionRows rows s).length ∧
      (groupbyRecord rows s).productIdCount = (sessionRows rows s).length := by
  simp [groupbyRecord]

/-- Witness for C8 on the scenario's count-5 session: the item list's
length and the count aggregate both equal the session's row count. -/
theorem aggregate_lengths_spec_witness :
    (groupbyRecord scenarioRows 2).productIdList.length =
        (sessionRows scenarioRows 2).length ∧
      (groupbyRecord scenarioRows 2).productIdCount =
        (sessionRows scenarioRows 2).length :=
  ⟨(aggregate_lengths_spec scenarioRows 2).1,
    (aggregate_lengths_spec scenarioRows 2).2.2.2.2.2.2.2.2.2⟩

/-- C1: sessions with at least the configured minimum of 2 interactions
produce an output record; in every output record each list-valued feature
equals the first `min(count, 20)` entries of the session's timestamp-order
sequence right-padded with the sentinel 0 to exactly length 20; sessions
below the minimum appear in no output record; and on the concrete
[1, 5, 25] scenario exactly 2 records are produced, the count-5 session's
lists are padded from 5 to 20 with trailing zeros, and the count-25
session's lists keep only the first 20 entries. -/
theorem window_filter_spec (rows : List FRow) :
    (∀ s, s ∈ sessionIds rows → 2 ≤ (sessionRows rows s).length →
        selectRecord ((groupbySessions rows).map (·.eventTimeTsFirst))
          (groupbyRecord rows s) ∈ filteredSessions rows) ∧
      (∀ o ∈ filteredSessions rows,
        2 ≤ (sessionRows rows o.userSession).length ∧
          o.productIdCount = (sessionRows rows o.userSession).length ∧
          o.productIdSeq.length = 20 ∧
          o.productIdSeq =
            ((sessionRows rows o.userSession).map (·.productId)).take
                (min (sessionRows rows o.userSession).length 20) ++
              List.replicate (20 - (sessionRows rows o.userSession).length) 0 ∧
          o.categoryCodeSeq =
            ((sessionRows rows o.userSession).map (·.categoryCode)).take
                (min (sessionRows rows o.userSession).length 20) ++
              List.replicate (20 - (sessionRows rows o.userSession).length) 0 ∧
          o.brandSeq =
            ((sessionRows rows o.userSession).map (·.brand)).take
                (min (sessionRows rows o.userSession).length 20) ++
              List.replicate (20 - (sessionRows rows o.userSession).length) 0 ∧
          o.categoryIdSeq =
            ((sessionRows rows o.userSession).map (·.categoryId)).take
                (min (sessionRows rows o.userSession).length 20) ++
              List.replicate (20 - (sessionRows rows o.userSession).length) 0 ∧
          o.dayofweekSinSeq =
            ((sessionRows rows o.userSession).map (·.dayofweekSin)).take
                (min (sessionRows rows o.userSession).length 20) ++
              List.replicate (20 - (sessionRows rows o.userSession).length) 0 ∧
          o.dayofweekCosSeq =
            ((sessionRows rows o.userSession).map (·.dayofweekCos)).take
                (min (sessionRows rows o.userSession).length 20) ++
              List.replicate (20 - (sessionRows rows o.userSession).length) 0 ∧
          o.priceLogNormSeq =
            ((sessionRows rows o.userSession).map (·.priceLogNorm)).take
                (min (sessionRows rows o.userSession).length 20) ++
              List.replicate (20 - (sessionRows rows o.userSession).length) 0 ∧
          o.relPriceSeq =
            ((sessionRows rows o.userSession).map (·.relPrice)).take
                (min (sessionRows rows o.userSession).length 20) ++
              List.replicate (20 - (sessionRows rows o.userSession).length) 0 ∧
          o.recencySeq =
            ((sessionRows rows o.userSession).map (·.recencyLogNorm)).take
                (min (sessionRows rows o.userSession).length 20) ++
              List.replicate (20 - (sessionRows rows o.userSession).length) 0) ∧
      (∀ s, (sessionRows rows s).length < 2 →
        ∀ o ∈ filteredSessions rows, o.userSession ≠ s) ∧
      (filteredSessions scenarioRows).length = 2 ∧
      (∀ o ∈ filteredSessions scenarioRows, o.userSession = 2 ∨ o.userSession = 3) ∧
      (∀ o ∈ filteredSessions scenarioRows, o.userSession = 2 →
        o.productIdCount = 5 ∧
          o.productIdSeq = [200, 201, 202, 203, 204] ++ List.replicate 15 0) ∧
      (∀ o ∈ filteredSessions scenarioRows, o.userSession = 3 →
        o.productIdCount = 25 ∧
          o.productIdSeq = (List.range 20).map (fun k => 300 + k)) := by
  have hcount : ∀ s, (groupbyRecord rows s).productIdCount =
      (sessionRows rows s).length := by
    intro s
    simp [groupbyRecord]
  refine ⟨?_, ?_, ?_, by decide, by decide, by decide, by decide⟩
  · intro s hs hlen
    refine List.mem_filter.mpr ⟨?_, ?_⟩
    · refine List.mem_map.mpr ⟨groupbyRecord rows s, ?_, rfl⟩
      exact List.mem_map.mpr ⟨s, hs, rfl⟩
    · have : (selectRecord ((groupbySessions rows).map (·.eventTimeTsFirst))
          (groupbyRecord rows s)).productIdCount =
          (sessionRows rows s).length := hcount s
      simpa [MINIMUM_SESSION_LENGTH, this] using hlen
  · intro o ho
    rcases List.mem_filter.mp ho with ⟨ho1, ho2⟩
    rcases List.mem_map.mp ho1 with ⟨rec, hrec, hfo⟩
    rcases List.mem_map.mp hrec with ⟨s, hs, hgs⟩
    subst hgs
    subst hfo
    have hsess : (selectRecord ((groupbySessions rows).map (·.eventTimeTsFirst))
        (groupbyRecord rows s)).userSession = s := rfl
    rw [hsess]
    have hmin : 2 ≤ (sessionRows rows s).length := by
      have h1 := hcount s
      have h2 : 2 ≤ (groupbyRecord rows s).productIdCount := of_decide_eq_true ho2
      omega
    refine ⟨hmin, hcount s, listSlicePad_len _ _ _, ?_, ?_, ?_, ?_, ?_, ?_, ?_, ?_, ?_⟩
    all_goals
      show listSlicePad SESSIONS_MAX_LENGTH 0 _ = _
      rw [listSlicePad_take]
      simp [groupbyRecord, SESSIONS_MAX_LENGTH]
  · intro s hshort o ho hsess
    rcases List.mem_filter.mp ho with ⟨ho1, ho2⟩
    rcases List.mem_map.mp ho1 with ⟨rec, hrec, hfo⟩
    rcases List.mem_map.mp hrec with ⟨t, ht, hgt⟩
    subst hgt
    subst hfo
    have : t = s := hsess
    subst this
    have h1 := hcount t
    have h2 : 2 ≤ (groupbyRecord rows t).productIdCount := of_decide_eq_true ho2
    omega

/-- Witness for C1: in the [1, 5, 25] scenario the count-5 session
qualifies and its windowed record is in the output. -/
theorem window_filter_spec_witness :
    2 ∈ sessionIds scenarioRows ∧
      2 ≤ (sessionRows scenarioRows 2).length ∧
      selectRecord ((groupbySessions scenarioRows).map (·.eventTimeTsFirst))
        (groupbyRecord scenarioRows 2) ∈ filteredSessions scenarioRows :=
  ⟨by decide, by decide,
    (window_filter_spec scenarioRows).1 2 (by decide) (by decide)⟩

/-! ## Event-normalizer timestamp parsing -/

/-- The error taxonomy entry raised when an event-time string cannot be
parsed. -/
inductive NormalizeError where
  | MalformedTimestamp
deriving DecidableEq

/-- Modelled from the spec: a raw interaction row after the event-time
string has been submitted to the (external, not in this repository)
datetime parser invoked by the `astype` conversion; `eventTimeParsed` is
`some` integral epoch seconds on success and `none` when the string is
unparseable. -/
structure RawEvent where
  sessionKey : Nat
  eventTimeParsed : Option Int
deriving DecidableEq

/-- Modelled from the spec: the Event Normalizer's timestamp step converts
every row's event-time string to integral epoch seconds and fails the
whole run with `MalformedTimestamp` on the first row whose string does not
parse; there is no per-row recovery, so the output rows all carry parsed
timestamps. -/
def normalizeEvents : List RawEvent → Except NormalizeError (List (Nat × Int))
  | [] => Except.ok []
  | r :: rest =>
    match r.eventTimeParsed with
    | none => Except.error NormalizeError.MalformedTimestamp
    | some t =>
      match normalizeEvents rest with
      | Except.error e => Except.error e
      | Except.ok out => Except.ok ((r.sessionKey, t) :: out)

/-- C9: the run fails with `MalformedTimestamp` exactly when some input
row's event-time string is unparseable, and on success every row of the
dataset reaches the output with its parsed integral timestamp — so no row
with an unparseable timestamp ever reaches a later pipeline stage. -/
theorem normalize_timestamp_spec (rows : List RawEvent) :
    ((∃ r ∈ rows, r.eventTimeParsed = none) ↔
        normalizeEvents rows = Except.error NormalizeError.MalformedTimestamp) ∧
      (∀ out, normalizeEvents rows = Except.ok out →
        out = rows.map fun r => (r.sessionKey, r.eventTimeParsed.getD 0)) := by
  induction rows with
  | nil =>
    refine ⟨⟨?_, ?_⟩, ?_⟩
    · rintro ⟨r, hr, -⟩
      simp at hr
    · intro h
      simp [normalizeEvents] at h
    · intro out h
      simp only [normalizeEvents, Except.ok.injEq] at h
      simp [← h]
  | cons r rest ih =>
    cases hr : r.eventTimeParsed with
    | none =>
      refine ⟨⟨?_, ?_⟩, ?_⟩
      · intro _
        simp [normalizeEvents, hr]
      · intro _
        exact ⟨r, List.mem_cons_self r rest, hr⟩
      · intro out h
        simp [normalizeEvents, hr] at h
    | some t =>
      refine ⟨⟨?_, ?_⟩, ?_⟩
      · rintro ⟨q, hq, hqnone⟩
        rcases List.mem_cons.mp hq with hq | hq
        · rw [hq, hr] at hqnone
          exact absurd hqnone (by simp)
        · have herr := ih.1.mp ⟨q, hq, hqnone⟩
          simp [normalizeEvents, hr, herr]
      · intro h
        simp only [normalizeEvents, hr] at h
        cases hrest : normalizeEvents rest with
        | error e =>
          rcases ih.1.mpr (by cases e; exact hrest) with ⟨q, hq, hqnone⟩
          exact ⟨q, List.mem_cons_of_mem r hq, hqnone⟩
        | ok out =>
          rw [hrest] at h
          simp at h
      · intro out h
        simp only [normalizeEvents, hr] at h
        cases hrest : normalizeEvents rest with
        | error e =>
          rw [hrest] at h
          simp at h
        | ok tail =>
          rw [hrest] at h
          simp only [Except.ok.injEq] at h
          rw [← h, List.map_cons, hr, ih.2 tail hrest]
          rfl

/-- Witness for C9: a dataset whose second row has an unparseable
event-time string aborts the run, and a fully parsed dataset passes every
row through with its timestamp. -/
theorem normalize_timestamp_spec_witness :
    normalizeEvents [RawEvent.mk 1 (some 50), RawEvent.mk 2 none] =
        Except.error NormalizeError.MalformedTimestamp ∧
      (normalizeEvents [RawEvent.mk 1 (some 50)] = Except.ok [(1, 50)] →
        [(1, 50)] = [RawEvent.mk 1 (some 50)].map
          fun r => (r.sessionKey, r.eventTimeParsed.getD 0)) :=
  ⟨(normalize_timestamp_spec [RawEvent.mk 1 (some 50), RawEvent.mk 2 none]).1.mp
      ⟨RawEvent.mk 2 none, by decide, rfl⟩,
    (normalize_timestamp_spec [RawEvent.mk 1 (some 50)]).2 [(1, 50)]⟩

end T4R
